import Mathlib

/-!
Shallow embedding of the `bun-fetch-mock` registry and dispatch engine
(`src/unnamed/part_000`, the current `index.ts`: class `FetchMock` with
`joinBaseUrl`, `validateUrl`, `validateMethod`, `reset`, `assertAllMocksUsed`,
`fetchMock` and `#mockRequest`).

JavaScript `Map` objects are modelled as association lists in insertion
order; `Map.set` updates in place when the key exists and appends otherwise,
`Map.delete` filters the key out, `Map.keys` lists keys in insertion order.
Header records (`Record<string, string>`) are association lists with unique
keys; object spread `{ a, ...b }` is a left fold of in-place update.
-/

namespace BunFetchMock

/-- Models JS `String.prototype.toUpperCase` as used on the ASCII HTTP method
names this library handles: character-wise basic-latin uppercasing. -/
def jsToUpperCase (s : String) : String :=
  ⟨s.data.map Char.toUpper⟩

/-- Models JS `String.prototype.startsWith(p)` (code-unit prefix test). -/
def jsStartsWith (s p : String) : Bool :=
  p.data.isPrefixOf s.data

/-- Models JS `String.prototype.endsWith(p)` (code-unit suffix test). -/
def jsEndsWith (s p : String) : Bool :=
  p.data.isSuffixOf s.data

/-- Models JS `String.prototype.slice(0, -1)`: drop the last code unit. -/
def jsSliceDropLast (s : String) : String :=
  ⟨s.data.dropLast⟩

/-- Models `Map.prototype.get`. -/
def mapGet {α : Type} (m : List (String × α)) (k : String) : Option α :=
  (m.find? (fun p => p.1 = k)).map (fun p => p.2)

/-- Models `Map.prototype.has`. -/
def mapHas {α : Type} (m : List (String × α)) (k : String) : Bool :=
  m.any (fun p => p.1 = k)

/-- Models `Map.prototype.set`: replace in place when present, append otherwise. -/
def mapSet {α : Type} (m : List (String × α)) (k : String) (v : α) :
    List (String × α) :=
  if mapHas m k then m.map (fun p => if p.1 = k then (k, v) else p)
  else m ++ [(k, v)]

/-- Models `Map.prototype.delete`. -/
def mapDelete {α : Type} (m : List (String × α)) (k : String) :
    List (String × α) :=
  m.filter (fun p => ¬ p.1 = k)

/-- Models `Map.prototype.keys`, in insertion order. -/
def mapKeys {α : Type} (m : List (String × α)) : List String :=
  m.map (fun p => p.1)

/-- A JS value stored in a mock's `data` field. `typeof data === "string"`
discriminates `str`; every other (structured) value is carried opaquely by
`other`, identified by its JSON serialization. -/
inductive JsData : Type
  | str (s : String)
  | other (json : String)
deriving DecidableEq, Repr

/-- The `MockOpts<T>` structure: the response spec passed to a registration call.
Absent optional fields are `none` (JS `undefined`). -/
structure MockOpts : Type where
  data : Option JsData := none
  status : Option Nat := none
  headers : Option (List (String × String)) := none
  statusText : Option String := none
  once : Option Bool := none
deriving DecidableEq, Repr

/-- A stored mock: `{ ...opts, isUsed }` as built by `#mockRequest`. -/
structure MockEntry extends MockOpts : Type where
  isUsed : Bool
deriving DecidableEq, Repr

/-- The fresh entry `{ ...opts, isUsed: false }` built by `#mockRequest`. -/
def entryOf (opts : MockOpts) : MockEntry :=
  { toMockOpts := opts, isUsed := false }

/-- The `FetchMock` registry state: base URL, active table `mocks`,
per-key overflow queues `mockQueue`. -/
structure FetchMock : Type where
  baseUrl : String
  mocks : List (String × MockEntry)
  mockQueue : List (String × List MockEntry)
deriving DecidableEq, Repr

/-- Models `new FetchMock(opts)` with `baseUrl = opts.baseUrl ?? ""`. -/
def FetchMock.create (baseUrl : Option String) : FetchMock :=
  { baseUrl := baseUrl.getD "", mocks := [], mockQueue := [] }

/-- The `getKey` function on a method and url. -/
def getKey (method url : String) : String :=
  "[" ++ method ++ "] " ++ url

/-- The `joinBaseUrl` helper: empty base returns the path verbatim;
otherwise one trailing `/` is stripped from the base before concatenation. -/
def joinBaseUrl (baseUrl path : String) : String :=
  if baseUrl = "" then path
  else
    let normalizedBaseUrl :=
      if jsEndsWith baseUrl "/" then jsSliceDropLast baseUrl else baseUrl
    normalizedBaseUrl ++ path

/-- The `validateUrl` check: `some message` models the returned `ValidationError`,
`none` models `null`. (The embedding is typed, so the JS `typeof url !==
"string"` arm of the first check is unrepresentable; `!url` is emptiness.) -/
def validateUrl (url : String) : Option String :=
  if url = "" then some "URL must be a non-empty string"
  else if ¬ jsStartsWith url "http://" ∧ ¬ jsStartsWith url "https://"
      ∧ ¬ jsStartsWith url "/" then
    some "URL must start with http://, https://, or /"
  else none

/-- The `validMethods` list of `validateMethod`. -/
def validMethods : List String :=
  ["GET", "POST", "PUT", "DELETE", "PATCH", "HEAD", "OPTIONS"]

/-- The `validateMethod` check. -/
def validateMethod (method : String) : Bool :=
  validMethods.contains method

/-- The `reset` method. -/
def FetchMock.reset (fm : FetchMock) : FetchMock :=
  { fm with mocks := [], mockQueue := [] }

/-- The `assertAllMocksUsed` method as the predicate it checks: `true` iff every
entry in `mocks` and in every `mockQueue` queue has `isUsed` (the JS method
throws on the first violation). -/
def assertAllMocksUsed (fm : FetchMock) : Bool :=
  fm.mocks.all (fun p => p.2.isUsed)
    && fm.mockQueue.all (fun p => p.2.all (fun e => e.isUsed))

/-- The errors `fetchMock` can throw. -/
inductive MockError : Type
  | unsupportedMethod (message : String)
  | noMockFound (message : String)
deriving DecidableEq, Repr

/-- A synthesized response. `plain body init` models `new Response(body, init)`
(with `none` the JS `null` body); `jsonOf d init` models `Response.json(d,
init)`, the collaborator that serializes `d` as JSON. -/
inductive Resp : Type
  | plain (body : Option String) (status : Nat)
      (headers : List (String × String)) (statusText : String)
  | jsonOf (data : JsData) (status : Nat)
      (headers : List (String × String)) (statusText : String)
deriving DecidableEq, Repr

/-- JS object spread `{ ...base, ...extra }` on string records: later keys
overwrite earlier ones in place. -/
def objectSpread (base extra : List (String × String)) :
    List (String × String) :=
  extra.foldl (fun acc p => mapSet acc p.1 p.2) base

/-- The response-synthesis tail of `fetchMock` (after the rotation block),
on the destructured `method`, `data`, `status`, `headers`, `statusText`. -/
def synthesizeResponse (method : String) (data : Option JsData) (status : Nat)
    (headers : List (String × String)) (statusText : String) : Resp :=
  if method = "HEAD" then .plain none status headers statusText
  else
    match data with
    | none => .plain none status headers statusText
    | some (.str s) =>
        .plain (some s) status
          (objectSpread [("Content-Type", "text/plain")] headers) statusText
    | some d => .jsonOf d status headers statusText

/-- The body of `fetchMock` after `methodStr` has been computed: validation,
key lookup, `isUsed` marking, once-rotation, response synthesis. Returns the
post-call registry state together with the result (`Except` models `throw`;
on a throw the state at the throw point is returned, and no mutation precedes
either throw in the source). -/
def dispatchWithMethod (fm : FetchMock) (url methodStr : String) :
    FetchMock × Except MockError Resp :=
  if ¬ validateMethod methodStr then
    (fm, .error (.unsupportedMethod ("Unsupported HTTP method: " ++ methodStr
      ++ ". Supported methods: GET, POST, PUT, DELETE, PATCH, HEAD, OPTIONS")))
  else
    let key := getKey methodStr url
    match mapGet fm.mocks key with
    | none =>
        let allMocks := mapKeys fm.mocks ++ mapKeys fm.mockQueue
        let availableMocks := String.intercalate ", " allMocks
        (fm, .error (.noMockFound ("No mock found for " ++ key ++
          (if availableMocks ≠ "" then ". Available mocks: " ++ availableMocks
           else ""))))
    | some opts =>
        let status := opts.status.getD 200
        let headers := opts.headers.getD []
        let statusText := opts.statusText.getD "OK"
        let usedEntry : MockEntry := { opts with isUsed := true }
        let fm1 := { fm with mocks := mapSet fm.mocks key usedEntry }
        let fm2 :=
          if opts.once.getD false then
            let fmDel := { fm1 with mocks := mapDelete fm1.mocks key }
            match mapGet fmDel.mockQueue key with
            | some (nextMock :: rest) =>
                let fmProm := { fmDel with
                  mocks := mapSet fmDel.mocks key nextMock }
                if rest.isEmpty then
                  { fmProm with mockQueue := mapDelete fmProm.mockQueue key }
                else
                  { fmProm with mockQueue := mapSet fmProm.mockQueue key rest }
            | _ => fmDel
          else fm1
        (fm2, .ok (synthesizeResponse methodStr opts.data status headers
          statusText))

/-- The `fetchMock` entry point: `init` is modelled by its optional `method`
field; `(init?.method ?? DEFAULT_METHOD).toUpperCase()`. -/
def fetchMock (fm : FetchMock) (url : String) (init : Option String) :
    FetchMock × Except MockError Resp :=
  dispatchWithMethod fm url (jsToUpperCase (init.getD "GET"))

/-- The private `#mockRequest` method: URL validation, base-URL resolution,
key computation, insertion into `mocks` or the key's overflow queue. Returns
the post-call state and `Except` models the throw (no mutation precedes it). -/
def mockRequest (fm : FetchMock) (method url : String) (opts : MockOpts) :
    FetchMock × Except String Unit :=
  match validateUrl url with
  | some msg =>
      (fm, .error ("Invalid URL for " ++ method ++ " mock: " ++ msg))
  | none =>
      let fullUrl := if jsStartsWith url "/" then joinBaseUrl fm.baseUrl url
        else url
      let key := getKey method fullUrl
      let mockData := entryOf opts
      if mapHas fm.mocks key then
        let queue := (mapGet fm.mockQueue key).getD []
        ({ fm with mockQueue := mapSet fm.mockQueue key (queue ++ [mockData]) },
          .ok ())
      else
        ({ fm with mocks := mapSet fm.mocks key mockData }, .ok ())

/-- Per-method registration wrapper `get(url, opts)`. -/
def FetchMock.get (fm : FetchMock) (url : String) (opts : MockOpts) :
    FetchMock × Except String Unit :=
  mockRequest fm "GET" url opts

/-- Per-method registration wrapper `post(url, opts)`. -/
def FetchMock.post (fm : FetchMock) (url : String) (opts : MockOpts) :
    FetchMock × Except String Unit :=
  mockRequest fm "POST" url opts

/-- Per-method registration wrapper `head(url, opts)`. -/
def FetchMock.head (fm : FetchMock) (url : String) (opts : MockOpts) :
    FetchMock × Except String Unit :=
  mockRequest fm "HEAD" url opts

/-- All entries currently stored in the registry: the active table's values
followed by every overflow queue's entries. -/
def allEntriesList (fm : FetchMock) : List MockEntry :=
  fm.mocks.map (fun p => p.2) ++ (fm.mockQueue.map (fun p => p.2)).flatten

instance {ε α : Type} [DecidableEq ε] [DecidableEq α] :
    DecidableEq (Except ε α) := fun
  | .ok a, .ok b => decidable_of_iff (a = b) (by simp)
  | .ok _, .error _ => isFalse (by simp)
  | .error _, .ok _ => isFalse (by simp)
  | .error e, .error f => decidable_of_iff (e = f) (by simp)

/-! ### Association-list map lemmas -/

theorem mapGet_cons {α : Type} (a : String × α) (m : List (String × α))
    (k : String) :
    mapGet (a :: m) k = if a.1 = k then some a.2 else mapGet m k := by
  by_cases h : a.1 = k <;> simp [mapGet, List.find?_cons, h]

theorem mapHas_cons {α : Type} (a : String × α) (m : List (String × α))
    (k : String) :
    mapHas (a :: m) k = (a.1 = k || mapHas m k) := by
  by_cases h : a.1 = k <;> simp [mapHas, h]

theorem mapHas_eq_isSome_mapGet {α : Type} (m : List (String × α))
    (k : String) : mapHas m k = (mapGet m k).isSome := by
  induction m with
  | nil => rfl
  | cons a m ih =>
      rw [mapHas_cons, mapGet_cons]
      by_cases h : a.1 = k <;> simp [h, ih]

theorem mapGet_mapSet_self {α : Type} (m : List (String × α)) (k : String)
    (v : α) : mapGet (mapSet m k v) k = some v := by
  unfold mapSet
  by_cases hm : mapHas m k
  · rw [if_pos hm]
    induction m with
    | nil => simp [mapHas] at hm
    | cons a m ih =>
        by_cases h : a.1 = k
        · simp [List.map_cons, h, mapGet_cons]
        · rw [mapHas_cons] at hm
          simp [h] at hm
          simp [List.map_cons, h, mapGet_cons, ih hm]
  · rw [if_neg hm]
    induction m with
    | nil => simp [mapGet_cons]
    | cons a m ih =>
        rw [mapHas_cons] at hm
        simp only [Bool.or_eq_true, decide_eq_true_eq, not_or] at hm
        simp [mapGet_cons, hm.1, ih (by simpa using hm.2)]

theorem mapGet_mapOver_ne {α : Type} (m : List (String × α)) (k k' : String)
    (v : α) (h : k' ≠ k) :
    mapGet (m.map (fun p => if p.1 = k then (k, v) else p)) k' =
      mapGet m k' := by
  induction m with
  | nil => rfl
  | cons a m ih =>
      rw [List.map_cons, mapGet_cons]
      by_cases ha : a.1 = k
      · rw [if_pos ha, mapGet_cons, if_neg (fun hh => h hh.symm),
          if_neg (fun hh : a.1 = k' => h (ha ▸ hh).symm)]
        exact ih
      · rw [if_neg ha, mapGet_cons]
        by_cases hb : a.1 = k' <;> simp [hb, ih]

theorem mapGet_append_single_ne {α : Type} (m : List (String × α))
    (k k' : String) (v : α) (h : k' ≠ k) :
    mapGet (m ++ [(k, v)]) k' = mapGet m k' := by
  induction m with
  | nil =>
      simp only [List.nil_append]
      rw [mapGet_cons, if_neg (fun hh : k = k' => h hh.symm)]
  | cons a m ih =>
      rw [List.cons_append, mapGet_cons, mapGet_cons, ih]

theorem mapGet_mapSet_ne {α : Type} (m : List (String × α)) (k k' : String)
    (v : α) (h : k' ≠ k) : mapGet (mapSet m k v) k' = mapGet m k' := by
  unfold mapSet
  by_cases hm : mapHas m k
  · rw [if_pos hm]
    exact mapGet_mapOver_ne m k k' v h
  · rw [if_neg hm]
    exact mapGet_append_single_ne m k k' v h

theorem mapGet_mapDelete_self {α : Type} (m : List (String × α))
    (k : String) : mapGet (mapDelete m k) k = none := by
  induction m with
  | nil => rfl
  | cons a m ih =>
      unfold mapDelete
      rw [List.filter_cons]
      by_cases h : a.1 = k
      · simp [h, mapDelete] at ih ⊢
        exact ih
      · simp only [h, decide_not, decide_eq_true_eq]
        simp [h, mapGet_cons, mapDelete] at ih ⊢
        exact ih

theorem mapGet_mapDelete_ne {α : Type} (m : List (String × α))
    (k k' : String) (h : k' ≠ k) :
    mapGet (mapDelete m k) k' = mapGet m k' := by
  induction m with
  | nil => rfl
  | cons a m ih =>
      unfold mapDelete
      rw [List.filter_cons]
      by_cases ha : a.1 = k
      · simp only [ha, decide_not]
        have : ¬ a.1 = k' := by rw [ha]; exact Ne.symm h
        simp [mapGet_cons, this, mapDelete] at ih ⊢
        exact ih
      · simp only [ha, decide_not, decide_eq_true_eq]
        simp [mapGet_cons, mapDelete] at ih ⊢
        by_cases hb : a.1 = k' <;> simp [hb, ih]

theorem mem_of_mem_mapSet {α : Type} {m : List (String × α)} {k : String}
    {v : α} {p : String × α} (h : p ∈ mapSet m k v) :
    p ∈ m ∨ p = (k, v) := by
  unfold mapSet at h
  by_cases hm : mapHas m k
  · rw [if_pos hm] at h
    rcases List.mem_map.mp h with ⟨q, hq, hfq⟩
    by_cases hqk : q.1 = k
    · simp [hqk] at hfq
      exact Or.inr hfq.symm
    · simp [hqk] at hfq
      exact Or.inl (hfq ▸ hq)
  · rw [if_neg hm] at h
    rcases List.mem_append.mp h with h | h
    · exact Or.inl h
    · simp at h
      exact Or.inr h

theorem mem_of_mem_mapDelete {α : Type} {m : List (String × α)} {k : String}
    {p : String × α} (h : p ∈ mapDelete m k) : p ∈ m :=
  List.mem_of_mem_filter h

theorem mem_of_mapGet_eq_some {α : Type} {m : List (String × α)} {k : String}
    {v : α} (h : mapGet m k = some v) : (k, v) ∈ m := by
  unfold mapGet at h
  rcases Option.map_eq_some'.mp h with ⟨p, hp, hv⟩
  have hk : p.1 = k := by simpa using List.find?_some hp
  have hm := List.mem_of_find?_eq_some hp
  have : p = (k, v) := by
    cases p
    simp_all
  exact this ▸ hm

theorem mapGet_eq_none_of_not_mem_keys {α : Type} {m : List (String × α)}
    {k : String} (h : k ∉ mapKeys m) : mapGet m k = none := by
  induction m with
  | nil => rfl
  | cons a m ih =>
      simp only [mapKeys, List.map_cons, List.mem_cons, not_or] at h
      rw [mapGet_cons, if_neg (fun hh => h.1 hh.symm)]
      exact ih (by simp only [mapKeys]; exact h.2)

/-! ### Uppercasing lemmas -/

theorem toNat_ofNat_of_isValid {n : Nat} (h : n.isValidChar) :
    (Char.ofNat n).toNat = n := by
  rw [Char.ofNat, dif_pos h]
  rfl

theorem toUpper_eq_self_of_not_lower {d : Char}
    (h : ¬ (97 ≤ d.toNat ∧ d.toNat ≤ 122)) : d.toUpper = d := by
  unfold Char.toUpper
  exact if_neg h

theorem toNat_toUpper (c : Char) :
    c.toUpper.toNat =
      if 97 ≤ c.toNat ∧ c.toNat ≤ 122 then c.toNat - 32 else c.toNat := by
  by_cases h : 97 ≤ c.toNat ∧ c.toNat ≤ 122
  · rw [if_pos h]
    unfold Char.toUpper
    rw [if_pos h]
    exact toNat_ofNat_of_isValid (Or.inl (by omega))
  · rw [if_neg h, toUpper_eq_self_of_not_lower h]

theorem toUpper_toUpper (c : Char) : c.toUpper.toUpper = c.toUpper := by
  apply toUpper_eq_self_of_not_lower
  rw [toNat_toUpper]
  split <;> omega

theorem jsToUpperCase_idem (s : String) :
    jsToUpperCase (jsToUpperCase s) = jsToUpperCase s := by
  unfold jsToUpperCase
  simp only [List.map_map]
  congr 1
  exact List.map_congr_left (fun a _ => toUpper_toUpper a)

theorem jsToUpperCase_of_valid {m : String} (h : validateMethod m = true) :
    jsToUpperCase m = m := by
  have hm : m ∈ validMethods := by
    simpa [validateMethod] using h
  simp only [validMethods, List.mem_cons, List.not_mem_nil, or_false] at hm
  rcases hm with rfl | rfl | rfl | rfl | rfl | rfl | rfl <;> decide

/-! ### `String.intercalate` non-emptiness -/

theorem length_le_intercalateGo (s : String) (l : List String) :
    ∀ acc : String, acc.length ≤ (String.intercalate.go acc s l).length := by
  induction l with
  | nil => intro acc; simp [String.intercalate.go]
  | cons a as ih =>
      intro acc
      rw [String.intercalate.go]
      calc acc.length ≤ (acc ++ s ++ a).length := by
            simp [String.length_append]
            omega
        _ ≤ _ := ih (acc ++ s ++ a)

theorem intercalate_ne_empty {k : String} (ks : List String) (hk : k ≠ "") :
    String.intercalate ", " (k :: ks) ≠ "" := by
  intro hc
  have h1 : k.length ≤ (String.intercalate ", " (k :: ks)).length := by
    rw [String.intercalate]
    exact length_le_intercalateGo ", " ks k
  rw [hc] at h1
  simp at h1
  apply hk
  cases k with
  | mk d =>
      simp [String.length] at h1
      rw [h1]

/-! ### Object-spread lookup lemmas -/

theorem mapGet_objectSpread_of_none {extra : List (String × String)}
    {k : String} (base : List (String × String))
    (h : mapGet extra k = none) :
    mapGet (objectSpread base extra) k = mapGet base k := by
  induction extra generalizing base with
  | nil => rfl
  | cons a as ih =>
      rw [mapGet_cons] at h
      by_cases ha : a.1 = k
      · rw [if_pos ha] at h
        exact absurd h (by simp)
      · rw [if_neg ha] at h
        show mapGet (objectSpread (mapSet base a.1 a.2) as) k = _
        rw [ih (mapSet base a.1 a.2) h,
          mapGet_mapSet_ne base a.1 k a.2 (fun hh => ha hh.symm)]

theorem mapGet_objectSpread_of_some {extra : List (String × String)}
    {k v : String} (base : List (String × String))
    (hnd : (mapKeys extra).Nodup) (h : mapGet extra k = some v) :
    mapGet (objectSpread base extra) k = some v := by
  induction extra generalizing base with
  | nil => exact absurd h (by simp [mapGet])
  | cons a as ih =>
      rw [mapGet_cons] at h
      simp only [mapKeys, List.map_cons, List.nodup_cons] at hnd
      by_cases ha : a.1 = k
      · rw [if_pos ha] at h
        have hnone : mapGet as k = none :=
          mapGet_eq_none_of_not_mem_keys (by rw [← ha]; exact hnd.1)
        show mapGet (objectSpread (mapSet base a.1 a.2) as) k = _
        rw [mapGet_objectSpread_of_none (mapSet base a.1 a.2) hnone, ha,
          mapGet_mapSet_self, h]
      · rw [if_neg ha] at h
        show mapGet (objectSpread (mapSet base a.1 a.2) as) k = _
        exact ih (mapSet base a.1 a.2) hnd.2 h

/-! ### Claim theorems -/

/-- Claim-side formulation (C1), following the spec's words: the URL under
which a root-relative registration is stored is the configured base URL with
any single trailing slash removed, concatenated with the path; when no base
URL is configured the path is stored verbatim. To be compared against the
source's `joinBaseUrl`. -/
def specStoredUrl (baseUrl path : String) : String :=
  if baseUrl = "" then path
  else (if jsEndsWith baseUrl "/" then jsSliceDropLast baseUrl else baseUrl)
    ++ path

theorem jsStartsWith_slash_ne_empty {url : String}
    (h : jsStartsWith url "/" = true) : url ≠ "" := by
  intro hc
  subst hc
  exact absurd h (by decide)

theorem validateUrl_of_slash {url : String}
    (h : jsStartsWith url "/" = true) : validateUrl url = none := by
  unfold validateUrl
  rw [if_neg (jsStartsWith_slash_ne_empty h), if_neg]
  intro hc
  exact hc.2.2 h

/-- C1: registering a root-relative path stores the entry (active when the
key is free, queued otherwise) under the key built from the base URL with any
single trailing slash removed concatenated with the path — the path verbatim
when no base URL is configured — and the registration succeeds. -/
theorem baseUrl_join_on_registration (fm : FetchMock) (method url : String)
    (opts : MockOpts) (hs : jsStartsWith url "/" = true) :
    (mockRequest fm method url opts).2 = .ok ()
    ∧ (if mapHas fm.mocks (getKey method (specStoredUrl fm.baseUrl url)) then
        mapGet (mockRequest fm method url opts).1.mockQueue
            (getKey method (specStoredUrl fm.baseUrl url)) =
          some ((mapGet fm.mockQueue
            (getKey method (specStoredUrl fm.baseUrl url))).getD []
              ++ [entryOf opts])
      else
        mapGet (mockRequest fm method url opts).1.mocks
            (getKey method (specStoredUrl fm.baseUrl url)) =
          some (entryOf opts)) := by
  have hjoin : joinBaseUrl fm.baseUrl url = specStoredUrl fm.baseUrl url := rfl
  unfold mockRequest
  rw [validateUrl_of_slash hs]
  simp only [hs, if_true, hjoin]
  by_cases hh : mapHas fm.mocks (getKey method (specStoredUrl fm.baseUrl url))
  · simp only [hh, if_true]
    exact ⟨trivial, mapGet_mapSet_self _ _ _⟩
  · simp only [hh, if_false, Bool.false_eq_true]
    exact ⟨trivial, mapGet_mapSet_self _ _ _⟩

/-- Witness for C1 at the spec's example: base `"https://api.example.com/"`
plus path `"/users"` stores the mock under
`"[GET] https://api.example.com/users"` — no doubled slash — and with no base
URL the path is stored verbatim. -/
theorem baseUrl_join_on_registration_witness :
    (mockRequest (FetchMock.create (some "https://api.example.com/")) "GET"
        "/users" {}).2 = .ok ()
    ∧ mapGet (mockRequest (FetchMock.create (some "https://api.example.com/"))
        "GET" "/users" {}).1.mocks "[GET] https://api.example.com/users" =
      some (entryOf {})
    ∧ mapGet (mockRequest (FetchMock.create none) "GET" "/users" {}).1.mocks
        "[GET] /users" = some (entryOf {}) := by
  have h1 := baseUrl_join_on_registration
    (FetchMock.create (some "https://api.example.com/")) "GET" "/users" {}
    (by decide)
  have h2 := baseUrl_join_on_registration (FetchMock.create none) "GET"
    "/users" {} (by decide)
  refine ⟨h1.1, ?_, ?_⟩
  · have h := h1.2
    rw [if_neg (by decide)] at h
    exact h
  · have h := h2.2
    rw [if_neg (by decide)] at h
    exact h

/-- C2: for every dispatch the method used for validation and key lookup is
the init structure's method when present and `GET` when absent, uppercased
before the supported-method check and the key computation: the whole dispatch
is invariant under uppercasing the supplied method, an absent method behaves
as `GET`, and in particular a dispatch with method `"get"` is identical to
one with `"GET"`. -/
theorem dispatch_method_resolution (fm : FetchMock) (url m : String) :
    fetchMock fm url (some m) = fetchMock fm url (some (jsToUpperCase m))
    ∧ fetchMock fm url none = fetchMock fm url (some "GET")
    ∧ fetchMock fm url (some "get") = fetchMock fm url (some "GET") := by
  refine ⟨?_, rfl, ?_⟩
  · show dispatchWithMethod fm url (jsToUpperCase m) =
      dispatchWithMethod fm url (jsToUpperCase (jsToUpperCase m))
    rw [jsToUpperCase_idem]
  · show dispatchWithMethod fm url (jsToUpperCase "get") =
      dispatchWithMethod fm url (jsToUpperCase "GET")
    rw [show jsToUpperCase "get" = "GET" from by decide,
      show jsToUpperCase "GET" = "GET" from by decide]

/-- C8: registration throws exactly when the url is empty or lacks one of the
three accepted prefixes (the embedding is typed, so a non-string url is
unrepresentable); the message names the method and the violated rule, and on
failure the registry state is unchanged — no entry is added anywhere. -/
theorem registration_url_validation (fm : FetchMock) (method url : String)
    (opts : MockOpts) :
    ((url = "" ∨ ¬ (jsStartsWith url "http://" = true
        ∨ jsStartsWith url "https://" = true
        ∨ jsStartsWith url "/" = true)) →
      mockRequest fm method url opts =
        (fm, .error ("Invalid URL for " ++ method ++ " mock: " ++
          (if url = "" then "URL must be a non-empty string"
           else "URL must start with http://, https://, or /"))))
    ∧ (¬ (url = "" ∨ ¬ (jsStartsWith url "http://" = true
        ∨ jsStartsWith url "https://" = true
        ∨ jsStartsWith url "/" = true)) →
      (mockRequest fm method url opts).2 = .ok ()) := by
  constructor
  · intro h
    rcases h with h | h
    · subst h
      simp [mockRequest, validateUrl]
    · have hurl : ¬ url = "" ∨ url = "" := em _ |>.symm
      by_cases he : url = ""
      · subst he
        simp [mockRequest, validateUrl]
      · have : validateUrl url =
            some "URL must start with http://, https://, or /" := by
          unfold validateUrl
          rw [if_neg he, if_pos]
          push_neg at h
          exact ⟨by simpa using h.1, by simpa using h.2.1, by simpa using h.2.2⟩
        simp [mockRequest, this, he]
  · intro h
    push_neg at h
    have : validateUrl url = none := by
      unfold validateUrl
      rw [if_neg h.1, if_neg]
      intro hc
      rcases h.2 with hp | hp | hp
      · exact hc.1 hp
      · exact hc.2.1 hp
      · exact hc.2.2 hp
    unfold mockRequest
    rw [this]
    by_cases hh : mapHas fm.mocks (getKey method
        (if jsStartsWith url "/" then joinBaseUrl fm.baseUrl url else url)) <;>
      simp [hh]

/-- Witness for C8 at the repo's own test input: registering `"invalid-url"`
for GET fails with the documented message and leaves the registry unchanged,
while a valid path registration succeeds. -/
theorem registration_url_validation_witness :
    mockRequest (FetchMock.create none) "GET" "invalid-url" {} =
      (FetchMock.create none,
       .error "Invalid URL for GET mock: URL must start with http://, https://, or /")
    ∧ (mockRequest (FetchMock.create none) "GET" "/users" {}).2 = .ok () := by
  constructor
  · have h := (registration_url_validation (FetchMock.create none) "GET"
      "invalid-url" {}).1 (Or.inr (by decide))
    exact h.trans (by decide)
  · exact (registration_url_validation (FetchMock.create none) "GET"
      "/users" {}).2 (by decide)

/-- C4: a dispatch with a supported resolved method and no active entry for
its key throws `NoMockFoundError` whose message is exactly
`No mock found for KEY` when active table and overflow table are both empty,
and otherwise that text followed by `. Available mocks: ` and the comma-joined
active keys in insertion order followed by the overflow keys in insertion
order, without deduplication. (Keys produced by the API are bracketed and
hence non-empty, which the hypothesis `hkeys` records.) -/
theorem noMockFound_message (fm : FetchMock) (url : String)
    (im : Option String)
    (hv : validateMethod (jsToUpperCase (im.getD "GET")) = true)
    (hmiss : mapGet fm.mocks (getKey (jsToUpperCase (im.getD "GET")) url)
      = none)
    (hkeys : ∀ k ∈ mapKeys fm.mocks ++ mapKeys fm.mockQueue, k ≠ "") :
    fetchMock fm url im = (fm, .error (.noMockFound
      ("No mock found for " ++ getKey (jsToUpperCase (im.getD "GET")) url ++
        (if mapKeys fm.mocks ++ mapKeys fm.mockQueue = [] then ""
         else ". Available mocks: " ++
           String.intercalate ", "
             (mapKeys fm.mocks ++ mapKeys fm.mockQueue))))) := by
  unfold fetchMock dispatchWithMethod
  simp only [hv, not_true, if_false, hmiss]
  cases hks : mapKeys fm.mocks ++ mapKeys fm.mockQueue with
  | nil =>
      have h0 : String.intercalate ", " ([] : List String) = "" := rfl
      simp [hks, h0]
  | cons k ks =>
      have hne : String.intercalate ", " (k :: ks) ≠ "" :=
        intercalate_ne_empty ks (hkeys k (by rw [hks]; exact List.mem_cons_self k ks))
      simp [hks, hne]

/-- Witness for C4 at the spec's concrete scenario: with only GET `/status`
registered, dispatching GET `/missing` fails with
`No mock found for [GET] /missing. Available mocks: [GET] /status`; against
an empty registry the suffix is omitted entirely. -/
theorem noMockFound_message_witness :
    (fetchMock (mockRequest (FetchMock.create none) "GET" "/status" {}).1
        "/missing" none).2 =
      .error (.noMockFound
        "No mock found for [GET] /missing. Available mocks: [GET] /status")
    ∧ (fetchMock (FetchMock.create none) "/missing" none).2 =
      .error (.noMockFound "No mock found for [GET] /missing") := by
  constructor
  · have h := noMockFound_message
      (mockRequest (FetchMock.create none) "GET" "/status" {}).1 "/missing"
      none (by decide) (by decide) (by decide)
    rw [h]
    decide
  · have h := noMockFound_message (FetchMock.create none) "/missing" none
      (by decide) (by decide) (by decide)
    rw [h]
    decide

/-- C5: a successful dispatch synthesizes the response by this priority on
the matched entry's spec: resolved method HEAD gives a body-less response
from status/headers/statusText regardless of `data`; absent `data` gives a
body-less response; string `data` gives a text body with `Content-Type:
text/plain` merged underneath the explicit headers (which win on key
collision, as the final conjunct states); any other `data` is passed to the
JSON response constructor. -/
theorem response_synthesis_priority (fm : FetchMock) (url : String)
    (im : Option String) (opts : MockEntry)
    (hv : validateMethod (jsToUpperCase (im.getD "GET")) = true)
    (hfound : mapGet fm.mocks (getKey (jsToUpperCase (im.getD "GET")) url)
      = some opts) :
    ((fetchMock fm url im).2 = .ok (
      if jsToUpperCase (im.getD "GET") = "HEAD" then
        .plain none (opts.status.getD 200) (opts.headers.getD [])
          (opts.statusText.getD "OK")
      else
        match opts.data with
        | none =>
            .plain none (opts.status.getD 200) (opts.headers.getD [])
              (opts.statusText.getD "OK")
        | some (.str s) =>
            .plain (some s) (opts.status.getD 200)
              (objectSpread [("Content-Type", "text/plain")]
                (opts.headers.getD []))
              (opts.statusText.getD "OK")
        | some (.other j) =>
            .jsonOf (.other j) (opts.status.getD 200) (opts.headers.getD [])
              (opts.statusText.getD "OK")))
    ∧ (∀ hd : List (String × String), (mapKeys hd).Nodup →
        (∀ v, mapGet hd "Content-Type" = some v →
          mapGet (objectSpread [("Content-Type", "text/plain")] hd)
            "Content-Type" = some v)
        ∧ (mapGet hd "Content-Type" = none →
          mapGet (objectSpread [("Content-Type", "text/plain")] hd)
            "Content-Type" = some "text/plain")) := by
  constructor
  · unfold fetchMock dispatchWithMethod
    simp only [hv, not_true, if_false, hfound]
    unfold synthesizeResponse
    rcases opts.data with _ | d
    · rfl
    · cases d <;> rfl
  · intro hd hnd
    constructor
    · intro v hv'
      exact mapGet_objectSpread_of_some _ hnd hv'
    · intro hnone
      rw [mapGet_objectSpread_of_none _ hnone]
      decide

/-- Witness for C5: a HEAD dispatch against an entry carrying `data` still
returns a body-less response, and the header-override conjunct holds for the
header list `[("Content-Type", "application/json")]`. -/
theorem response_synthesis_priority_witness :
    (fetchMock (mockRequest (FetchMock.create none) "HEAD" "/check"
        { data := some (.str "body") }).1 "/check" (some "head")).2 =
      .ok (.plain none 200 [] "OK")
    ∧ mapGet (objectSpread [("Content-Type", "text/plain")]
        [("Content-Type", "application/json")]) "Content-Type" =
      some "application/json" := by
  have h := response_synthesis_priority
    (mockRequest (FetchMock.create none) "HEAD" "/check"
      { data := some (.str "body") }).1 "/check" (some "head")
    (entryOf { data := some (.str "body") }) (by decide) (by decide)
  constructor
  · rw [h.1]
    decide
  · exact (h.2 [("Content-Type", "application/json")] (by decide)).1
      "application/json" (by decide)

/-- C9: `assertAllMocksUsed` fails exactly when some entry in the active
table or in some overflow queue is unused, and passes exactly when every
entry across both structures is used (entries already consumed and removed
are not present in `allEntriesList`, so they cannot cause a failure). -/
theorem assertAllMocksUsed_iff (fm : FetchMock) :
    (assertAllMocksUsed fm = false ↔
      ∃ e ∈ allEntriesList fm, e.isUsed = false)
    ∧ (assertAllMocksUsed fm = true ↔
      ∀ e ∈ allEntriesList fm, e.isUsed = true) := by
  have hall : assertAllMocksUsed fm = true ↔
      ∀ e ∈ allEntriesList fm, e.isUsed = true := by
    unfold assertAllMocksUsed allEntriesList
    constructor
    · intro h e he
      simp only [Bool.and_eq_true, List.all_eq_true] at h
      rcases List.mem_append.mp he with he | he
      · rcases List.mem_map.mp he with ⟨p, hp, rfl⟩
        exact h.1 p hp
      · rcases List.mem_flatten.mp he with ⟨l, hl, hel⟩
        rcases List.mem_map.mp hl with ⟨p, hp, rfl⟩
        exact h.2 p hp e hel
    · intro h
      simp only [Bool.and_eq_true, List.all_eq_true]
      constructor
      · intro p hp
        exact h p.2 (List.mem_append.mpr (Or.inl (List.mem_map.mpr ⟨p, hp, rfl⟩)))
      · intro p hp e hel
        exact h e (List.mem_append.mpr (Or.inr (List.mem_flatten.mpr
          ⟨p.2, List.mem_map.mpr ⟨p, hp, rfl⟩, hel⟩)))
  constructor
  · rw [Bool.eq_false_iff, Ne, hall]
    push_neg
    constructor
    · rintro ⟨e, he, hu⟩
      exact ⟨e, he, by simp [hu]⟩
    · rintro ⟨e, he, hu⟩
      exact ⟨e, he, by simpa using hu⟩
  · exact hall

/-- C6's invariant: every overflow queue stored in `mockQueue` is non-empty
(no dangling empty sequences). -/
def queueInvariant (fm : FetchMock) : Prop :=
  ∀ p ∈ fm.mockQueue, p.2 ≠ []

instance (fm : FetchMock) : Decidable (queueInvariant fm) :=
  List.decidableBAll _ fm.mockQueue

/-- C6: every overflow queue present in the overflow table is non-empty; the
invariant holds for a fresh registry and is preserved by every registration
(queues are created only by pushing an element), every dispatch (a key whose
queue is emptied by promotion is removed from the overflow table), and reset. -/
theorem overflow_nonempty_invariant :
    (∀ b, queueInvariant (FetchMock.create b))
    ∧ (∀ fm method url opts, queueInvariant fm →
        queueInvariant (mockRequest fm method url opts).1)
    ∧ (∀ fm url im, queueInvariant fm →
        queueInvariant (fetchMock fm url im).1)
    ∧ (∀ fm : FetchMock, queueInvariant fm.reset) := by
  refine ⟨?_, ?_, ?_, ?_⟩
  · intro b p hp
    simp [FetchMock.create] at hp
  · intro fm method url opts hinv
    unfold mockRequest
    cases hvu : validateUrl url with
    | some msg => exact hinv
    | none =>
        by_cases hh : mapHas fm.mocks (getKey method
          (if jsStartsWith url "/" then joinBaseUrl fm.baseUrl url else url))
        · simp only [hh, if_true]
          intro p hp
          rcases mem_of_mem_mapSet hp with hp | hp
          · exact hinv p hp
          · rw [hp]
            simp
        · simp only [hh, if_false, Bool.false_eq_true]
          intro p hp
          exact hinv p hp
  · intro fm url im hinv
    unfold fetchMock dispatchWithMethod
    by_cases hv : validateMethod (jsToUpperCase (im.getD "GET")) = true
    · simp only [hv, not_true, if_false]
      cases hk : mapGet fm.mocks (getKey (jsToUpperCase (im.getD "GET")) url)
        with
      | none => exact hinv
      | some opts =>
          by_cases ho : opts.once.getD false = true
          · simp only [ho, if_true]
            split
            · split
              · intro p hp
                exact hinv p (mem_of_mem_mapDelete hp)
              · rename_i hr
                intro p hp
                rcases mem_of_mem_mapSet hp with hp | hp
                · exact hinv p hp
                · rw [hp]
                  intro hc
                  apply hr
                  rw [List.isEmpty_iff]
                  exact hc
            · exact hinv
          · simp only [ho, if_false, Bool.false_eq_true]
            exact hinv
    · simp only [hv, not_false_iff, if_true]
      exact hinv
  · intro fm p hp
    simp [FetchMock.reset] at hp

/-- Witness for C6: the invariant-preservation implications applied to a
concrete chain — registering the same key twice creates a non-empty queue,
and a `once` dispatch that empties it removes the key. -/
theorem overflow_nonempty_invariant_witness :
    queueInvariant (mockRequest (mockRequest (FetchMock.create none) "GET"
      "/a" { once := some true }).1 "GET" "/a" {}).1
    ∧ queueInvariant (fetchMock (mockRequest (mockRequest
        (FetchMock.create none) "GET" "/a" { once := some true }).1 "GET"
        "/a" {}).1 "/a" none).1 := by
  constructor
  · exact overflow_nonempty_invariant.2.1
      (mockRequest (FetchMock.create none) "GET" "/a" { once := some true }).1
      "GET" "/a" {} (by decide)
  · exact overflow_nonempty_invariant.2.2.1
      (mockRequest (mockRequest (FetchMock.create none) "GET" "/a"
        { once := some true }).1 "GET" "/a" {}).1 "/a" none (by decide)

/-- The `fullUrl` computation of `#mockRequest`: base-URL resolution applied
to root-relative paths, absolute URLs passed through. -/
def resolveUrl (baseUrl url : String) : String :=
  if jsStartsWith url "/" then joinBaseUrl baseUrl url else url

/-- Fold of `#mockRequest` over a list of specs for one (method, url). -/
def registerAll (fm : FetchMock) (method url : String) :
    List MockOpts → FetchMock
  | [] => fm
  | o :: os => registerAll (mockRequest fm method url o).1 method url os

/-- The results of `n` successive dispatches of the same call, threading the
registry state (a throwing dispatch returns the state unchanged). -/
def dispatchResults (fm : FetchMock) (url : String) (im : Option String) :
    Nat → List (Except MockError Resp)
  | 0 => []
  | n + 1 =>
      (fetchMock fm url im).2 ::
        dispatchResults (fetchMock fm url im).1 url im n

/-- The registry shape reached by registering only against a single key:
the first pending entry is active, the remaining ones queue under the key,
and no empty queue is ever stored. -/
def stateOfKey (b key : String) (es : List MockEntry) : FetchMock :=
  { baseUrl := b
    mocks := match es with
      | [] => []
      | e :: _ => [(key, e)]
    mockQueue := match es with
      | _ :: r :: rest => [(key, r :: rest)]
      | _ => [] }

theorem mockRequest_stateOfKey {b method url key : String} {o : MockOpts}
    (es : List MockEntry) (hurl : validateUrl url = none)
    (hkey : getKey method
      (if jsStartsWith url "/" then joinBaseUrl b url else url) = key) :
    mockRequest (stateOfKey b key es) method url o =
      (stateOfKey b key (es ++ [entryOf o]), .ok ()) := by
  cases es with
  | nil => simp [mockRequest, hurl, hkey, stateOfKey, mapHas, mapGet, mapSet]
  | cons e rest =>
      cases rest with
      | nil =>
          simp [mockRequest, hurl, hkey, stateOfKey, mapHas, mapGet, mapSet]
      | cons r rs =>
          simp [mockRequest, hurl, hkey, stateOfKey, mapHas, mapGet, mapSet]

theorem registerAll_stateOfKey {b method url key : String}
    (hurl : validateUrl url = none)
    (hkey : getKey method
      (if jsStartsWith url "/" then joinBaseUrl b url else url) = key)
    (specs : List MockOpts) (es : List MockEntry) :
    registerAll (stateOfKey b key es) method url specs =
      stateOfKey b key (es ++ specs.map entryOf) := by
  induction specs generalizing es with
  | nil => simp [registerAll]
  | cons o os ih =>
      rw [registerAll, mockRequest_stateOfKey es hurl hkey]
      have := ih (es ++ [entryOf o])
      simpa [List.append_assoc] using this

theorem fetchMock_stateOfKey_nil {b url M : String}
    (hv : validateMethod M = true) (hM : jsToUpperCase M = M) :
    fetchMock (stateOfKey b (getKey M url) []) url (some M) =
      (stateOfKey b (getKey M url) [],
       .error (.noMockFound ("No mock found for " ++ getKey M url))) := by
  have h1 : String.intercalate ", " ([] : List String) = "" := rfl
  simp [fetchMock, dispatchWithMethod, hM, hv, stateOfKey, mapGet, mapKeys,
    h1]

theorem fetchMock_stateOfKey_once {b url M : String} {e : MockEntry}
    (rest : List MockEntry)
    (hv : validateMethod M = true) (hM : jsToUpperCase M = M)
    (ho : e.once = some true) :
    fetchMock (stateOfKey b (getKey M url) (e :: rest)) url (some M) =
      (stateOfKey b (getKey M url) rest,
       .ok (synthesizeResponse M e.data (e.status.getD 200)
         (e.headers.getD []) (e.statusText.getD "OK"))) := by
  cases rest with
  | nil =>
      simp [fetchMock, dispatchWithMethod, hM, hv, ho, stateOfKey, mapGet,
        mapSet, mapHas, mapDelete]
  | cons r rs =>
      cases rs with
      | nil =>
          simp [fetchMock, dispatchWithMethod, hM, hv, ho, stateOfKey,
            mapGet, mapSet, mapHas, mapDelete]
      | cons s ss =>
          simp [fetchMock, dispatchWithMethod, hM, hv, ho, stateOfKey,
            mapGet, mapSet, mapHas, mapDelete]

theorem dispatchResults_stateOfKey {b url M : String} (es : List MockEntry)
    (hv : validateMethod M = true) (hM : jsToUpperCase M = M)
    (ho : ∀ e ∈ es, e.once = some true) :
    dispatchResults (stateOfKey b (getKey M url) es) url (some M)
        (es.length + 1) =
      es.map (fun e => .ok (synthesizeResponse M e.data (e.status.getD 200)
        (e.headers.getD []) (e.statusText.getD "OK")))
      ++ [.error (.noMockFound ("No mock found for " ++ getKey M url))] := by
  induction es with
  | nil =>
      rw [dispatchResults, fetchMock_stateOfKey_nil hv hM]
      rfl
  | cons e rest ih =>
      rw [dispatchResults,
        fetchMock_stateOfKey_once rest hv hM (ho e (List.mem_cons_self e rest))]
      simp only [List.length_cons]
      rw [ih (fun x hx => ho x (List.mem_cons_of_mem e hx))]
      rfl

/-- C3: for N ≥ 1 registrations of `once: true` specs against the same
(method, url) key on a fresh registry, the first N dispatches to that key
return the responses synthesized from the specs in registration order (each
dispatch consuming the matched entry and promoting the next queued one), and
the (N+1)th dispatch throws `NoMockFoundError`. -/
theorem once_queue_drain (b method url : String) (specs : List MockOpts)
    (hv : validateMethod method = true)
    (hurl : validateUrl url = none)
    (honce : ∀ o ∈ specs, o.once = some true)
    (hne : specs ≠ []) :
    dispatchResults (registerAll (FetchMock.create (some b)) method url specs)
        (resolveUrl b url) (some method) (specs.length + 1) =
      specs.map (fun o => .ok (synthesizeResponse method o.data
        (o.status.getD 200) (o.headers.getD []) (o.statusText.getD "OK")))
      ++ [.error (.noMockFound ("No mock found for "
          ++ getKey method (resolveUrl b url)))] := by
  have hM : jsToUpperCase method = method := jsToUpperCase_of_valid hv
  have hstart : FetchMock.create (some b) =
      stateOfKey b (getKey method (resolveUrl b url)) [] := rfl
  have hkey : getKey method
      (if jsStartsWith url "/" then joinBaseUrl b url else url) =
      getKey method (resolveUrl b url) := rfl
  rw [hstart, registerAll_stateOfKey hurl hkey specs []]
  simp only [List.nil_append]
  have hlen : specs.length = (specs.map entryOf).length :=
    (List.length_map specs entryOf).symm
  rw [hlen, dispatchResults_stateOfKey (specs.map entryOf) hv hM
    (fun e he => by
      rcases List.mem_map.mp he with ⟨o, ho', rfl⟩
      exact honce o ho')]
  simp only [List.map_map]
  rfl

/-- Witness for C3 with two `once` specs on a fresh registry: the two
dispatches return the two specs' responses in order and the third throws
`NoMockFoundError`. -/
theorem once_queue_drain_witness :
    dispatchResults (registerAll (FetchMock.create (some "")) "GET" "/a"
        [{ data := some (.str "one"), once := some true },
         { data := some (.str "two"), once := some true }])
      (resolveUrl "" "/a") (some "GET") 3 =
      [.ok (.plain (some "one") 200 [("Content-Type", "text/plain")] "OK"),
       .ok (.plain (some "two") 200 [("Content-Type", "text/plain")] "OK"),
       .error (.noMockFound "No mock found for [GET] /a")] := by
  have h := once_queue_drain "" "GET" "/a"
    [{ data := some (.str "one"), once := some true },
     { data := some (.str "two"), once := some true }]
    (by decide) (by decide) (by decide) (by decide)
  exact h.trans (by decide)

theorem mem_allEntriesList {fm : FetchMock} {e : MockEntry} :
    e ∈ allEntriesList fm ↔
      (∃ p ∈ fm.mocks, p.2 = e) ∨ ∃ p ∈ fm.mockQueue, e ∈ p.2 := by
  unfold allEntriesList
  rw [List.mem_append]
  constructor
  · rintro (h | h)
    · rcases List.mem_map.mp h with ⟨p, hp, rfl⟩
      exact Or.inl ⟨p, hp, rfl⟩
    · rcases List.mem_flatten.mp h with ⟨l, hl, hel⟩
      rcases List.mem_map.mp hl with ⟨p, hp, rfl⟩
      exact Or.inr ⟨p, hp, hel⟩
  · rintro (⟨p, hp, rfl⟩ | ⟨p, hp, hel⟩)
    · exact Or.inl (List.mem_map.mpr ⟨p, hp, rfl⟩)
    · exact Or.inr (List.mem_flatten.mpr
        ⟨p.2, List.mem_map.mpr ⟨p, hp, rfl⟩, hel⟩)

/-- C7: `isUsed` lifecycle — a freshly registered entry starts with `isUsed
= false`; a successful registration changes nothing except appending that
fresh entry at its own key (existing entries keep their flags and none is
removed); a dispatch never produces an unused entry that was not already
stored unused (a flag once `true` is never set back to `false`); a
successful dispatch changes nothing at any key other than the matched one,
and at the matched key it stores the matched entry with `isUsed = true` when
`once` is off, while a `once` match removes exactly the matched entry and
promotes the queue head unchanged — so `isUsed` is set precisely on the
matched entry, and no operation but a full reset (which discards all
entries) removes a used entry from an unrelated slot. (`assertAllMocksUsed`
is a pure predicate in the embedding and has no state to change.) -/
theorem isUsed_lifecycle :
    (∀ o : MockOpts, (entryOf o).isUsed = false)
    ∧ (∀ fm method url opts e,
        e ∈ allEntriesList (mockRequest fm method url opts).1 →
        e ∈ allEntriesList fm ∨ e = entryOf opts)
    ∧ (∀ fm method url opts, validateUrl url = none →
        (∀ k, k ≠ getKey method (resolveUrl fm.baseUrl url) →
          mapGet (mockRequest fm method url opts).1.mocks k
            = mapGet fm.mocks k
          ∧ mapGet (mockRequest fm method url opts).1.mockQueue k
            = mapGet fm.mockQueue k)
        ∧ (if mapHas fm.mocks (getKey method (resolveUrl fm.baseUrl url))
            then
            (mockRequest fm method url opts).1.mocks = fm.mocks
            ∧ mapGet (mockRequest fm method url opts).1.mockQueue
                (getKey method (resolveUrl fm.baseUrl url)) =
              some ((mapGet fm.mockQueue
                (getKey method (resolveUrl fm.baseUrl url))).getD []
                  ++ [entryOf opts])
          else
            (mockRequest fm method url opts).1.mockQueue = fm.mockQueue
            ∧ mapGet (mockRequest fm method url opts).1.mocks
                (getKey method (resolveUrl fm.baseUrl url)) =
              some (entryOf opts)))
    ∧ (∀ fm url im e, e ∈ allEntriesList (fetchMock fm url im).1 →
        e.isUsed = false → e ∈ allEntriesList fm)
    ∧ (∀ fm url im opts,
        validateMethod (jsToUpperCase (im.getD "GET")) = true →
        mapGet fm.mocks (getKey (jsToUpperCase (im.getD "GET")) url)
          = some opts →
        (∀ k, k ≠ getKey (jsToUpperCase (im.getD "GET")) url →
          mapGet (fetchMock fm url im).1.mocks k = mapGet fm.mocks k
          ∧ mapGet (fetchMock fm url im).1.mockQueue k
            = mapGet fm.mockQueue k)
        ∧ (if opts.once.getD false = true then
            mapGet (fetchMock fm url im).1.mocks
                (getKey (jsToUpperCase (im.getD "GET")) url) =
              (match mapGet fm.mockQueue
                  (getKey (jsToUpperCase (im.getD "GET")) url) with
               | some (next :: _) => some next
               | _ => none)
            ∧ mapGet (fetchMock fm url im).1.mockQueue
                (getKey (jsToUpperCase (im.getD "GET")) url) =
              (match mapGet fm.mockQueue
                  (getKey (jsToUpperCase (im.getD "GET")) url) with
               | some (_ :: rest) =>
                   if rest.isEmpty = true then none else some rest
               | q0 => q0)
          else
            mapGet (fetchMock fm url im).1.mocks
                (getKey (jsToUpperCase (im.getD "GET")) url) =
              some { opts with isUsed := true }
            ∧ (fetchMock fm url im).1.mockQueue = fm.mockQueue))
    ∧ (∀ fm : FetchMock, allEntriesList fm.reset = []) := by
  refine ⟨fun o => rfl, ?_, ?_, ?_, ?_, fun fm => rfl⟩
  · intro fm method url opts e he
    unfold mockRequest at he
    cases hvu : validateUrl url with
    | some msg =>
        rw [hvu] at he
        exact Or.inl he
    | none =>
        rw [hvu] at he
        by_cases hh : mapHas fm.mocks (getKey method
          (if jsStartsWith url "/" then joinBaseUrl fm.baseUrl url else url))
        · simp only [hh, if_true] at he
          rcases mem_allEntriesList.mp he with ⟨p, hp, hpe⟩ | ⟨p, hp, hel⟩
          · exact Or.inl (mem_allEntriesList.mpr (Or.inl ⟨p, hp, hpe⟩))
          · rcases mem_of_mem_mapSet hp with hp | hp
            · exact Or.inl (mem_allEntriesList.mpr (Or.inr ⟨p, hp, hel⟩))
            · rw [hp] at hel
              rcases List.mem_append.mp hel with hel | hel
              · cases hq : mapGet fm.mockQueue (getKey method
                  (if jsStartsWith url "/" then joinBaseUrl fm.baseUrl url
                   else url)) with
                | none =>
                    rw [hq] at hel
                    simp at hel
                | some q =>
                    rw [hq] at hel
                    exact Or.inl (mem_allEntriesList.mpr (Or.inr
                      ⟨_, mem_of_mapGet_eq_some hq, hel⟩))
              · simp at hel
                exact Or.inr hel
        · simp only [hh, if_false, Bool.false_eq_true] at he
          rcases mem_allEntriesList.mp he with ⟨p, hp, hpe⟩ | ⟨p, hp, hel⟩
          · rcases mem_of_mem_mapSet hp with hp | hp
            · exact Or.inl (mem_allEntriesList.mpr (Or.inl ⟨p, hp, hpe⟩))
            · rw [hp] at hpe
              exact Or.inr hpe.symm
          · exact Or.inl (mem_allEntriesList.mpr (Or.inr ⟨p, hp, hel⟩))
  · intro fm method url opts hurl
    simp only [resolveUrl]
    unfold mockRequest
    rw [hurl]
    by_cases hh : mapHas fm.mocks (getKey method
      (if jsStartsWith url "/" then joinBaseUrl fm.baseUrl url else url))
    · simp only [hh, if_true]
      exact ⟨fun k hkk => ⟨by trivial, mapGet_mapSet_ne _ _ _ _ hkk⟩,
        by trivial, mapGet_mapSet_self _ _ _⟩
    · simp only [hh, if_false, Bool.false_eq_true]
      exact ⟨fun k hkk => ⟨mapGet_mapSet_ne _ _ _ _ hkk, by trivial⟩,
        by trivial, mapGet_mapSet_self _ _ _⟩
  · intro fm url im e he hu
    unfold fetchMock dispatchWithMethod at he
    by_cases hv : validateMethod (jsToUpperCase (im.getD "GET")) = true
    · simp only [hv, not_true, if_false] at he
      cases hk : mapGet fm.mocks (getKey (jsToUpperCase (im.getD "GET")) url)
        with
      | none =>
          rw [hk] at he
          exact he
      | some opts =>
          rw [hk] at he
          by_cases ho : opts.once.getD false = true
          · simp only [ho, if_true] at he
            split at he
            · rename_i nextMock rest heq
              split at he
              · rcases mem_allEntriesList.mp he with ⟨p, hp, hpe⟩ |
                  ⟨p, hp, hel⟩
                · rcases mem_of_mem_mapSet hp with hp | hp
                  · rcases mem_of_mem_mapSet (mem_of_mem_mapDelete hp) with
                      hp | hp
                    · exact mem_allEntriesList.mpr (Or.inl ⟨p, hp, hpe⟩)
                    · rw [hp] at hpe
                      rw [← hpe] at hu
                      simp at hu
                  · rw [hp] at hpe
                    exact mem_allEntriesList.mpr (Or.inr
                      ⟨_, mem_of_mapGet_eq_some heq, by
                        rw [← hpe]; exact List.mem_cons_self _ _⟩)
                · exact mem_allEntriesList.mpr (Or.inr
                    ⟨p, mem_of_mem_mapDelete hp, hel⟩)
              · rcases mem_allEntriesList.mp he with ⟨p, hp, hpe⟩ |
                    ⟨p, hp, hel⟩
                · rcases mem_of_mem_mapSet hp with hp | hp
                  · rcases mem_of_mem_mapSet (mem_of_mem_mapDelete hp) with
                      hp | hp
                    · exact mem_allEntriesList.mpr (Or.inl ⟨p, hp, hpe⟩)
                    · rw [hp] at hpe
                      rw [← hpe] at hu
                      simp at hu
                  · rw [hp] at hpe
                    exact mem_allEntriesList.mpr (Or.inr
                      ⟨_, mem_of_mapGet_eq_some heq, by
                        rw [← hpe]; exact List.mem_cons_self _ _⟩)
                · rcases mem_of_mem_mapSet hp with hp | hp
                  · exact mem_allEntriesList.mpr (Or.inr ⟨p, hp, hel⟩)
                  · rw [hp] at hel
                    exact mem_allEntriesList.mpr (Or.inr
                      ⟨_, mem_of_mapGet_eq_some heq,
                        List.mem_cons_of_mem _ hel⟩)
            · rcases mem_allEntriesList.mp he with ⟨p, hp, hpe⟩ |
                  ⟨p, hp, hel⟩
              · rcases mem_of_mem_mapSet (mem_of_mem_mapDelete hp) with
                  hp | hp
                · exact mem_allEntriesList.mpr (Or.inl ⟨p, hp, hpe⟩)
                · rw [hp] at hpe
                  rw [← hpe] at hu
                  simp at hu
              · exact mem_allEntriesList.mpr (Or.inr ⟨p, hp, hel⟩)
          · simp only [ho, if_false, Bool.false_eq_true] at he
            rcases mem_allEntriesList.mp he with ⟨p, hp, hpe⟩ | ⟨p, hp, hel⟩
            · rcases mem_of_mem_mapSet hp with hp | hp
              · exact mem_allEntriesList.mpr (Or.inl ⟨p, hp, hpe⟩)
              · rw [hp] at hpe
                rw [← hpe] at hu
                simp at hu
            · exact mem_allEntriesList.mpr (Or.inr ⟨p, hp, hel⟩)
    · simp only [hv, not_false_iff, if_true] at he
      exact he
  · intro fm url im opts hv hk
    unfold fetchMock dispatchWithMethod
    simp only [hv, not_true, if_false, hk]
    by_cases ho : opts.once.getD false = true
    · simp only [ho, if_true]
      cases hq : mapGet fm.mockQueue
          (getKey (jsToUpperCase (im.getD "GET")) url) with
      | none =>
          simp only [hq]
          exact ⟨fun k hkk => ⟨(mapGet_mapDelete_ne _ _ _ hkk).trans
            (mapGet_mapSet_ne _ _ _ _ hkk), by trivial⟩,
            mapGet_mapDelete_self _ _, by trivial⟩
      | some q =>
          cases q with
          | nil =>
              simp only [hq]
              exact ⟨fun k hkk => ⟨(mapGet_mapDelete_ne _ _ _ hkk).trans
                (mapGet_mapSet_ne _ _ _ _ hkk), by trivial⟩,
                mapGet_mapDelete_self _ _, by trivial⟩
          | cons next rest =>
              simp only [hq]
              by_cases hr : rest.isEmpty = true
              · simp only [hr, if_true]
                exact ⟨fun k hkk => ⟨(mapGet_mapSet_ne _ _ _ _ hkk).trans
                  ((mapGet_mapDelete_ne _ _ _ hkk).trans
                    (mapGet_mapSet_ne _ _ _ _ hkk)),
                  mapGet_mapDelete_ne _ _ _ hkk⟩,
                  mapGet_mapSet_self _ _ _, mapGet_mapDelete_self _ _⟩
              · simp only [hr, if_false, Bool.false_eq_true]
                exact ⟨fun k hkk => ⟨(mapGet_mapSet_ne _ _ _ _ hkk).trans
                  ((mapGet_mapDelete_ne _ _ _ hkk).trans
                    (mapGet_mapSet_ne _ _ _ _ hkk)),
                  mapGet_mapSet_ne _ _ _ _ hkk⟩,
                  mapGet_mapSet_self _ _ _, mapGet_mapSet_self _ _ _⟩
    · simp only [ho, if_false, Bool.false_eq_true]
      exact ⟨fun k hkk => ⟨mapGet_mapSet_ne _ _ _ _ hkk, by trivial⟩,
        mapGet_mapSet_self _ _ _, by trivial⟩

/-- Witness for C7 on a registry holding GET `/data` and GET `/other`:
registration stored the fresh `/data` entry unused; after dispatching GET
`/data`, the matched entry is stored used while the unrelated `/other` entry
is exactly as before the dispatch. -/
theorem isUsed_lifecycle_witness :
    (entryOf { data := some (.str "t") }).isUsed = false
    ∧ mapGet (fetchMock (mockRequest (mockRequest (FetchMock.create none)
        "GET" "/data" { data := some (.str "t") }).1 "GET" "/other" {}).1
        "/data" none).1.mocks "[GET] /data" =
      some { entryOf { data := some (.str "t") } with isUsed := true }
    ∧ mapGet (fetchMock (mockRequest (mockRequest (FetchMock.create none)
        "GET" "/data" { data := some (.str "t") }).1 "GET" "/other" {}).1
        "/data" none).1.mocks "[GET] /other" = some (entryOf {})
    ∧ mapGet (mockRequest (FetchMock.create none) "GET" "/data"
        { data := some (.str "t") }).1.mocks "[GET] /data" =
      some (entryOf { data := some (.str "t") }) := by
  have h5 := isUsed_lifecycle.2.2.2.2.1
    (mockRequest (mockRequest (FetchMock.create none) "GET" "/data"
      { data := some (.str "t") }).1 "GET" "/other" {}).1 "/data" none
    (entryOf { data := some (.str "t") }) (by decide) (by decide)
  have h3 := isUsed_lifecycle.2.2.1 (FetchMock.create none) "GET" "/data"
    { data := some (.str "t") } (by decide)
  refine ⟨isUsed_lifecycle.1 { data := some (.str "t") }, ?_, ?_, ?_⟩
  · have h := h5.2
    rw [if_neg (by decide)] at h
    exact h.1
  · exact ((h5.1 "[GET] /other" (by decide)).1).trans (by decide)
  · have h := h3.2
    rw [if_neg (by decide)] at h
    exact h.2

/-- C10: a dispatch that throws (unsupported method or no mock found) leaves
the registry state — active table, overflow queues, and every `isUsed`
flag — exactly as it was. -/
theorem dispatch_error_state_unchanged (fm : FetchMock) (url : String)
    (im : Option String) (e : MockError)
    (h : (fetchMock fm url im).2 = .error e) :
    (fetchMock fm url im).1 = fm := by
  unfold fetchMock dispatchWithMethod at h ⊢
  by_cases hv : validateMethod (jsToUpperCase (im.getD "GET")) = true
  · simp only [hv, not_true, if_neg, ite_false, Bool.not_eq_true] at h ⊢
    cases hk : mapGet fm.mocks (getKey (jsToUpperCase (im.getD "GET")) url) with
    | none => simp [hk]
    | some opts => simp [hk] at h
  · simp [hv]

/-- Witness for C10: a dispatch against an empty registry throws, and the
state after the failed call is the empty registry it started from. -/
theorem dispatch_error_state_unchanged_witness :
    (fetchMock (FetchMock.create none) "/x" none).1 = FetchMock.create none :=
  dispatch_error_state_unchanged (FetchMock.create none) "/x" none
    (.noMockFound "No mock found for [GET] /x") (by decide)

end BunFetchMock
